import Mathlib

/-!
Verification development for a browser-based coffee-recipe assistant.

The program consists of three source files: a recipe generator component
with a sequential, cancellable, rate-limited image generation pipeline, a
chat component that attaches grounding citations to replies, and a service
module wrapping the generative-AI provider.

Modelling conventions:
- React state hooks become fields of explicit state records; every state
  setter becomes a functional update of the record.
- The shared mutable ref isGeneratingRef is observed by the sequencer only
  at its checkpoints, and JavaScript is single threaded, so the flag can
  only change while the sequencer is suspended at an await point.  We
  therefore model the value the sequencer reads as a function
  live : Nat -> Bool of the number of completed awaits.  When interleaving
  with other sessions matters, live is refined as sampledLive flag sched,
  where flag is the fine-grained history of the shared boolean over ticks
  and sched maps each checkpoint to the tick at which the loop resumes.
- Remote calls (recipe text, main image, step images, chat reply) are
  fallible and opaque; their outcomes are oracle parameters of type
  Option _, with none modelling a thrown failure.
- Prompt text templates are out of the modelled scope, as the design
  document declares; request events therefore carry only step indices.
- JSON.parse of the runtime is modelled by an executable parser jsonParse
  over a Json syntax tree.  It covers objects, arrays, strings with the
  common escapes, integer numerals, booleans and null; fractional or
  exponent numerals and unicode escapes are outside the modelled fragment.
-/

namespace CoffeeMaster

/-- Language selector of the UI, from types.ts. -/
inductive Language where
  | en : Language
  | zh : Language
deriving DecidableEq

/-- View state of the recipe generator, the step hook of RecipeGenerator.tsx. -/
inductive ViewStep where
  | input : ViewStep
  | generating : ViewStep
  | result : ViewStep
deriving DecidableEq

/-- Recipe record, from types.ts. -/
structure Recipe where
  title : String
  description : String
  ingredients : List String
  steps : List String
  tips : String

/-- State of the RecipeGenerator component: one field per React state hook
plus the isGeneratingRef mutable ref.  stepImages models the
Record from step index to image url, with none for an absent key. -/
structure CompState where
  prompt : String
  loading : Bool
  recipe : Option Recipe
  imageUrl : Option String
  stepImages : Nat → Option String
  error : Option String
  step : ViewStep
  isGenerating : Bool

/-- Observable request and wait events emitted by the sequencer. -/
inductive Event where
  | mainRequest : Event
  | delay : Nat → Event
  | stepRequest : Nat → Event
deriving DecidableEq

/-- Fixed inter-request delay of generateImagesSequentially, in
milliseconds. -/
def DELAY_MS : Nat := 4000

/-- Functional update modelling the object spread in
setStepImages, which writes key i and copies every other key. -/
def applyStepImage (m : Nat → Option String) (i : Nat) (img : String) :
    Nat → Option String :=
  fun j => if j = i then some img else m j

/-- Step loop of generateImagesSequentially, lines 110 to 129 of
RecipeGenerator.tsx.  The first argument live gives the value of
isGeneratingRef.current observed after a given number of completed awaits;
stepRes is the oracle of step-image request outcomes; the list holds the
remaining step indices; the Nat argument counts completed awaits so far.
Per step the loop checks the flag, awaits the fixed delay, re-checks the
flag, awaits the request, and applies a successful result only when the
flag still reads true. -/
def runSteps (live : Nat → Bool) (stepRes : Nat → Option String) :
    List Nat → Nat → CompState → List Event × CompState
  | [], _, s => ([], s)
  | i :: rest, t, s =>
    if live t then
      if live (t + 1) then
        let s1 :=
          match stepRes i with
          | some img =>
            if live (t + 2) then
              { s with stepImages := applyStepImage s.stepImages i img }
            else s
          | none => s
        let p := runSteps live stepRes rest (t + 2) s1
        (Event.delay DELAY_MS :: Event.stepRequest i :: p.1, p.2)
      else ([Event.delay DELAY_MS], s)
    else ([], s)

/-- Whole body of generateImagesSequentially, lines 99 to 130 of
RecipeGenerator.tsx: an initial flag check, the main-image request with its
guarded application, then the step loop.  mainRes is the oracle of the
main-image request outcome. -/
def runSequencer (live : Nat → Bool) (mainRes : Option String)
    (stepRes : Nat → Option String) (rec : Recipe) (s : CompState) :
    List Event × CompState :=
  if live 0 then
    let s1 :=
      match mainRes with
      | some img => if live 1 then { s with imageUrl := some img } else s
      | none => s
    let p := runSteps live stepRes (List.range rec.steps.length) 1 s1
    (Event.mainRequest :: p.1, p.2)
  else ([], s)

/-- Refinement of the liveness observation: flag is the fine-grained
history of the shared boolean isGeneratingRef.current over ticks, and
sched maps each checkpoint of a given loop to the tick at which that loop
resumes and samples the flag. -/
def sampledLive (flag : Nat → Bool) (sched : Nat → Nat) : Nat → Bool :=
  fun t => flag (sched t)

/-- Canonical event trace of an uncancelled run over n steps: one main
request, then per step one fixed delay followed by one step request. -/
def canonicalEvents (n : Nat) : List Event :=
  Event.mainRequest ::
    (List.range n).flatMap (fun i => [Event.delay DELAY_MS, Event.stepRequest i])

/-- handleReset of RecipeGenerator.tsx, lines 132 to 135: clears the
liveness flag and returns the view to the input step. -/
def handleReset (s : CompState) : CompState :=
  { s with isGenerating := false, step := ViewStep.input }

/-- Localized inline error text of the recipe generator, the error entry of
its translation table. -/
def recipeErrorText (lang : Language) : String :=
  match lang with
  | Language.en => "Failed to brew your recipe. Please try again."
  | Language.zh => "配方生成失败，请重试。"

/-- Whitespace trim of the JavaScript runtime, modelled executably over the
character list: leading and trailing whitespace characters are removed. -/
def jsTrim (s : String) : String :=
  String.mk
    (((s.data.dropWhile Char.isWhitespace).reverse.dropWhile
      Char.isWhitespace).reverse)

/-- Run of handleGenerate, lines 63 to 96 of RecipeGenerator.tsx, given the
outcome of the recipe-text request (none models a thrown failure).  The
returned Bool records whether the recipe-text request was issued.  On
success the component moves to the result view and starts the sequencer
with the flag set true; on failure the catch block shows the localized
error, returns to the input view and stops loading. -/
def handleGenerateRun (lang : Language) (s : CompState) (inputPrompt : String)
    (recipeRes : Option Recipe) : CompState × Bool :=
  if jsTrim inputPrompt = "" then (s, false)
  else
    let s1 : CompState :=
      { s with isGenerating := false, prompt := inputPrompt, loading := true,
               error := none, step := ViewStep.generating, recipe := none,
               imageUrl := none, stepImages := fun _ => none }
    match recipeRes with
    | some r =>
      ({ s1 with recipe := some r, step := ViewStep.result, loading := false,
                 isGenerating := true }, true)
    | none =>
      ({ s1 with error := some (recipeErrorText lang), step := ViewStep.input,
                 loading := false }, true)

/-- Role of a chat message, from types.ts. -/
inductive Role where
  | user : Role
  | model : Role
deriving DecidableEq

/-- Grounding citation entry of a chat message, from types.ts.  The title
field of the provider chunk may be absent, hence Option. -/
structure SourceEntry where
  uri : String
  title : Option String
deriving DecidableEq

/-- Chat message, from types.ts. -/
structure Message where
  id : String
  role : Role
  text : String
  sources : Option (List SourceEntry)
deriving DecidableEq

/-- State of the ChatInterface component: one field per React state hook. -/
structure ChatState where
  messages : List Message
  input : String
  isLoading : Bool
deriving DecidableEq

/-- Web info of a provider grounding chunk; both fields may be absent. -/
structure WebInfo where
  uri : Option String
  title : Option String
deriving DecidableEq

/-- Provider grounding chunk; the web field may be absent. -/
structure GroundingChunk where
  web : Option WebInfo
deriving DecidableEq

/-- Provider grounding metadata; the chunk list may be absent. -/
structure GroundingMetadata where
  groundingChunks : Option (List GroundingChunk)
deriving DecidableEq

/-- Provider chat response: reply text and grounding metadata, both
possibly absent. -/
structure ChatResponse where
  text : Option String
  groundingMetadata : Option GroundingMetadata
deriving DecidableEq

/-- Mapper of the sources extraction in handleSend, lines 78 to 83 of
ChatInterface.tsx: a chunk with a truthy web uri yields an entry, any
other chunk yields null.  An empty uri string is falsy in JavaScript and
therefore yields null as well. -/
def entryOfChunk (c : GroundingChunk) : Option SourceEntry :=
  match c.web with
  | some w =>
    match w.uri with
    | some u => if u = "" then none else some { uri := u, title := w.title }
    | none => none
  | none => none

/-- Sources extraction of handleSend: map the chunks through entryOfChunk
and drop the null entries, modelling map followed by filter Boolean. -/
def sourcesOfChunks (chunks : List GroundingChunk) : List SourceEntry :=
  (chunks.map entryOfChunk).filterMap id

/-- Modelled from the spec: a chunk has a web URI when its web info carries
a nonempty uri (an empty uri string is falsy and counts as missing). -/
def hasWebUri (c : GroundingChunk) : Bool :=
  match c.web with
  | some w =>
    match w.uri with
    | some u => if u = "" then false else true
    | none => false
  | none => false

/-- Modelled from the spec: the citation entry a uri-bearing chunk
contributes, in the order of the metadata. -/
def specSourceOfChunk (c : GroundingChunk) : SourceEntry :=
  match c.web with
  | some w => { uri := w.uri.getD "", title := w.title }
  | none => { uri := "", title := none }

/-- User message appended by handleSend; the id is the current time as a
string. -/
def mkUserMsg (now : Nat) (txt : String) : Message :=
  { id := toString now, role := Role.user, text := txt, sources := none }

/-- Model reply message built by handleSend, lines 74 to 84 of
ChatInterface.tsx: text falls back to the empty string, sources come from
the optional grounding metadata chain. -/
def mkBotMsg (now : Nat) (resp : ChatResponse) : Message :=
  { id := toString (now + 1), role := Role.model,
    text := resp.text.getD "",
    sources := (resp.groundingMetadata.bind GroundingMetadata.groundingChunks).map
      sourcesOfChunks }

/-- Localized chat error text of ChatInterface.tsx. -/
def chatErrorText (lang : Language) : String :=
  match lang with
  | Language.en =>
    "Sorry, I\x27m having trouble connecting to the coffee spirits right now. Please try again."
  | Language.zh => "抱歉，我现在连接咖啡之神有点困难，请稍后再试。"

/-- Error message appended by the catch block of handleSend. -/
def mkChatErrorMsg (lang : Language) (now : Nat) : Message :=
  { id := toString now, role := Role.model, text := chatErrorText lang,
    sources := none }

/-- Run of handleSend, lines 50 to 97 of ChatInterface.tsx, given the
outcome of the conversational request (none models a thrown failure).  The
returned Bool records whether a request was issued.  A blank input or a
still-loading previous request returns immediately; otherwise the user
message is appended, the input cleared, and on completion either the model
reply or the localized error message is appended, with loading cleared in
the finally block. -/
def handleSendRun (lang : Language) (s : ChatState) (now : Nat)
    (reply : Option ChatResponse) : ChatState × Bool :=
  if jsTrim s.input = "" ∨ s.isLoading = true then (s, false)
  else
    let userMsg := mkUserMsg now s.input
    let s1 : ChatState :=
      { messages := s.messages ++ [userMsg], input := "", isLoading := true }
    match reply with
    | some resp =>
      ({ s1 with messages := s1.messages ++ [mkBotMsg now resp],
                 isLoading := false }, true)
    | none =>
      ({ s1 with messages := s1.messages ++ [mkChatErrorMsg lang now],
                 isLoading := false }, true)

/-- JSON value tree, the codomain of the modelled JSON.parse. -/
inductive Json where
  | null : Json
  | bool : Bool → Json
  | num : Int → Json
  | str : String → Json
  | arr : List Json → Json
  | obj : List (String × Json) → Json

/-- Whitespace recognised by the modelled JSON parser. -/
def isJsonWs (c : Char) : Bool :=
  c = ' ' ∨ c = '\t' ∨ c = '\n' ∨ c = '\r'

/-- Drops leading JSON whitespace. -/
def skipWs : List Char → List Char
  | [] => []
  | c :: cs => if isJsonWs c then skipWs cs else c :: cs

/-- Single-character escapes of JSON strings; unicode escapes are outside
the modelled fragment. -/
def unescape (e : Char) : Option Char :=
  if e = '"' then some '"'
  else if e = '\\' then some '\\'
  else if e = '/' then some '/'
  else if e = 'n' then some '\n'
  else if e = 't' then some '\t'
  else if e = 'r' then some '\r'
  else if e = 'b' then some (Char.ofNat 8)
  else if e = 'f' then some (Char.ofNat 12)
  else none

/-- Parses the body of a JSON string after the opening quote, returning the
string and the remaining input. -/
def parseStrAux : List Char → String → Option (String × List Char)
  | [], _ => none
  | c :: cs, acc =>
    if c = '"' then some (acc, cs)
    else if c = '\\' then
      match cs with
      | [] => none
      | e :: cs2 =>
        match unescape e with
        | some ch => parseStrAux cs2 (acc.push ch)
        | none => none
    else parseStrAux cs (acc.push c)
termination_by l _ => l.length

/-- Numeric value of a digit list. -/
def digitsToNat (ds : List Char) : Nat :=
  ds.foldl (fun acc c => acc * 10 + (c.toNat - 48)) 0

/-- Parses an integer JSON numeral with optional leading minus; fractional
and exponent numerals are outside the modelled fragment. -/
def parseNumAux (input : List Char) : Option (Int × List Char) :=
  match input with
  | '-' :: rest =>
    let p := rest.span Char.isDigit
    if p.1.isEmpty then none else some (-(digitsToNat p.1 : Int), p.2)
  | _ =>
    let p := input.span Char.isDigit
    if p.1.isEmpty then none else some ((digitsToNat p.1 : Int), p.2)

/-- Opening brace character of JSON objects. -/
def lbrace : Char := Char.ofNat 123

/-- Closing brace character of JSON objects. -/
def rbrace : Char := Char.ofNat 125

mutual

/-- Parses one JSON value; the fuel argument bounds recursion depth. -/
def parseValue : Nat → List Char → Option (Json × List Char)
  | 0, _ => none
  | fuel + 1, input =>
    match skipWs input with
    | [] => none
    | c :: rest =>
      if c = 'n' then
        match rest with
        | 'u' :: 'l' :: 'l' :: r => some (Json.null, r)
        | _ => none
      else if c = 't' then
        match rest with
        | 'r' :: 'u' :: 'e' :: r => some (Json.bool true, r)
        | _ => none
      else if c = 'f' then
        match rest with
        | 'a' :: 'l' :: 's' :: 'e' :: r => some (Json.bool false, r)
        | _ => none
      else if c = '"' then
        match parseStrAux rest "" with
        | some (s, r) => some (Json.str s, r)
        | none => none
      else if c = '[' then
        match skipWs rest with
        | ']' :: r => some (Json.arr [], r)
        | r2 => parseArrItems fuel r2 []
      else if c = lbrace then
        let r2 := skipWs rest
        if r2.head? = some rbrace then some (Json.obj [], r2.tail)
        else parseObjItems fuel r2 []
      else
        match parseNumAux (c :: rest) with
        | some (n, r) => some (Json.num n, r)
        | none => none

/-- Parses the comma-separated items of a JSON array after the opening
bracket. -/
def parseArrItems : Nat → List Char → List Json → Option (Json × List Char)
  | 0, _, _ => none
  | fuel + 1, input, acc =>
    match parseValue fuel input with
    | none => none
    | some (v, rest) =>
      match skipWs rest with
      | ',' :: r2 => parseArrItems fuel r2 (acc ++ [v])
      | ']' :: r2 => some (Json.arr (acc ++ [v]), r2)
      | _ => none

/-- Parses the comma-separated members of a JSON object after the opening
brace. -/
def parseObjItems : Nat → List Char → List (String × Json) →
    Option (Json × List Char)
  | 0, _, _ => none
  | fuel + 1, input, acc =>
    match skipWs input with
    | [] => none
    | c :: rest =>
      if c = '"' then
        match parseStrAux rest "" with
        | some (k, r1) =>
          match skipWs r1 with
          | ':' :: r2 =>
            match parseValue fuel r2 with
            | some (v, r3) =>
              match skipWs r3 with
              | ',' :: r4 => parseObjItems fuel r4 (acc ++ [(k, v)])
              | r4 =>
                if r4.head? = some rbrace then
                  some (Json.obj (acc ++ [(k, v)]), r4.tail)
                else none
            | none => none
          | _ => none
        | none => none
      else none

end

/-- Modelled JSON.parse: parses one value and requires only whitespace to
remain. -/
def jsonParse (s : String) : Option Json :=
  let cs := s.toList
  match parseValue (cs.length + 1) cs with
  | some (j, rest) => if (skipWs rest).isEmpty then some j else none
  | none => none

/-- generateCoffeeRecipe of the gemini service module, lines 35 to 67:
given the text of the provider response (none models an absent field), a
falsy text throws, otherwise the result of JSON.parse is returned with a
type cast and no runtime shape validation; only a JSON syntax error
throws. -/
def generateCoffeeRecipe (respText : Option String) : Except String Json :=
  match respText with
  | none => Except.error ("No recipe generated")
  | some text =>
    if text = "" then Except.error ("No recipe generated")
    else
      match jsonParse text with
      | some j => Except.ok j
      | none => Except.error ("SyntaxError")

/-- Tests whether a JSON value is a string. -/
def isStringJson : Json → Bool
  | Json.str _ => true
  | _ => false

/-- Tests whether every element of a JSON list is a string. -/
def allStrings (l : List Json) : Bool := l.all isStringJson

/-- Modelled from the spec: a JSON value has the Recipe shape when it is an
object carrying a string title, a string description, string-array
ingredients and steps, and string tips. -/
def isRecipeShaped (j : Json) : Bool :=
  match j with
  | Json.obj fields =>
    (match fields.lookup ("title") with
     | some (Json.str _) => true
     | _ => false) &&
    (match fields.lookup ("description") with
     | some (Json.str _) => true
     | _ => false) &&
    (match fields.lookup ("ingredients") with
     | some (Json.arr l) => allStrings l
     | _ => false) &&
    (match fields.lookup ("steps") with
     | some (Json.arr l) => allStrings l
     | _ => false) &&
    (match fields.lookup ("tips") with
     | some (Json.str _) => true
     | _ => false)
  | _ => false

/-- Concrete recipe used by witnesses. -/
def sampleRecipe : Recipe :=
  { title := "Latte", description := "Milk coffee",
    ingredients := ["espresso shot", "milk"],
    steps := ["Pull the shot", "Steam the milk"],
    tips := "Use fresh beans" }

/-- Concrete component state used by witnesses: the state right after a
recipe arrives, with no images yet. -/
def sampleState : CompState :=
  { prompt := "latte", loading := false, recipe := some sampleRecipe,
    imageUrl := none, stepImages := fun _ => none, error := none,
    step := ViewStep.result, isGenerating := true }

/-- Concrete chat state used by witnesses. -/
def sampleChat : ChatState :=
  { messages := [], input := "hi", isLoading := false }

/-- An uncancelled step loop emits, per remaining step, one fixed delay
followed by one step request, whatever the request outcomes are. -/
theorem runSteps_events_of_live (live : Nat → Bool) (stepRes : Nat → Option String)
    (l : List Nat) (t : Nat) (s : CompState) (h : ∀ u, live u = true) :
    (runSteps live stepRes l t s).1 =
      l.flatMap (fun i => [Event.delay DELAY_MS, Event.stepRequest i]) := by
  induction l generalizing t s with
  | nil => rfl
  | cons i rest ih =>
    cases hres : stepRes i <;>
      simp [runSteps, h, hres, ih]

/-- The step loop never writes any field other than stepImages. -/
theorem runSteps_frame (live : Nat → Bool) (stepRes : Nat → Option String)
    (l : List Nat) (t : Nat) (s : CompState) :
    (runSteps live stepRes l t s).2.imageUrl = s.imageUrl ∧
    (runSteps live stepRes l t s).2.error = s.error ∧
    (runSteps live stepRes l t s).2.prompt = s.prompt ∧
    (runSteps live stepRes l t s).2.loading = s.loading ∧
    (runSteps live stepRes l t s).2.recipe = s.recipe ∧
    (runSteps live stepRes l t s).2.step = s.step ∧
    (runSteps live stepRes l t s).2.isGenerating = s.isGenerating := by
  induction l generalizing t s with
  | nil => exact ⟨rfl, rfl, rfl, rfl, rfl, rfl, rfl⟩
  | cons i rest ih =>
    by_cases h0 : live t
    · by_cases h1 : live (t + 1)
      · cases hres : stepRes i with
        | none => simpa [runSteps, h0, h1, hres] using ih (t + 2) s
        | some img =>
          by_cases h2 : live (t + 2)
          · simpa [runSteps, h0, h1, hres, h2] using
              ih (t + 2) { s with stepImages := applyStepImage s.stepImages i img }
          · simpa [runSteps, h0, h1, hres, h2] using ih (t + 2) s
      · simp [runSteps, h0, h1]
    · simp [runSteps, h0]

/-- Any change the step loop makes at a key of stepImages comes from the
successful request outcome of that same key. -/
theorem runSteps_stepImages_origin (live : Nat → Bool)
    (stepRes : Nat → Option String) (l : List Nat) (t : Nat) (s : CompState)
    (j : Nat) :
    (runSteps live stepRes l t s).2.stepImages j = s.stepImages j ∨
      ∃ img, stepRes j = some img ∧
        (runSteps live stepRes l t s).2.stepImages j = some img := by
  induction l generalizing t s with
  | nil => exact Or.inl rfl
  | cons i rest ih =>
    by_cases h0 : live t
    · by_cases h1 : live (t + 1)
      · cases hres : stepRes i with
        | none =>
          simpa [runSteps, h0, h1, hres] using ih (t + 2) s
        | some img =>
          by_cases h2 : live (t + 2)
          · have h3 := ih (t + 2)
              { s with stepImages := applyStepImage s.stepImages i img }
            rcases h3 with h3 | ⟨im2, he, h3⟩
            · by_cases hij : j = i
              · subst hij
                refine Or.inr ⟨img, hres, ?_⟩
                simp [runSteps, h0, h1, hres, h2, h3, applyStepImage]
              · refine Or.inl ?_
                simp [runSteps, h0, h1, hres, h2, h3, applyStepImage, hij]
            · exact Or.inr ⟨im2, he, by simp [runSteps, h0, h1, hres, h2, h3]⟩
          · simpa [runSteps, h0, h1, hres, h2] using ih (t + 2) s
      · simp [runSteps, h0, h1]
    · simp [runSteps, h0]

/-- If, for every position of the remaining list that holds index j, the
flag reads false at the post-delay check of that position, then the loop
never issues a request for step j. -/
theorem runSteps_no_request (live : Nat → Bool) (stepRes : Nat → Option String)
    (l : List Nat) (t : Nat) (s : CompState) (j : Nat)
    (h : ∀ p (hp : p < l.length), l.get ⟨p, hp⟩ = j →
      live (t + 2 * p + 1) = false) :
    Event.stepRequest j ∉ (runSteps live stepRes l t s).1 := by
  induction l generalizing t s with
  | nil => simp [runSteps]
  | cons i rest ih =>
    by_cases h0 : live t
    · by_cases h1 : live (t + 1)
      · have hij : i ≠ j := by
          intro hij
          have hf := h 0 (by simp) hij
          rw [show t + 2 * 0 + 1 = t + 1 by omega] at hf
          simp [hf] at h1
        have hrest : ∀ p (hp : p < rest.length), rest.get ⟨p, hp⟩ = j →
            live (t + 2 + 2 * p + 1) = false := by
          intro p hp hpj
          have hf := h (p + 1) (by simpa using Nat.succ_lt_succ hp) hpj
          rw [show t + 2 * (p + 1) + 1 = t + 2 + 2 * p + 1 by omega] at hf
          exact hf
        cases hres : stepRes i
        all_goals simp [runSteps, h0, h1, hres]
        all_goals exact ⟨fun hji => hij (Eq.symm hji), ih (t + 2) _ hrest⟩
      · simp [runSteps, h0, h1]
    · simp [runSteps, h0]

/-- If, for every position of the remaining list that holds index j, the
flag reads false at the post-request application check of that position,
then stepImages is unchanged at key j. -/
theorem runSteps_stepImages_pos_frame (live : Nat → Bool)
    (stepRes : Nat → Option String) (l : List Nat) (t : Nat) (s : CompState)
    (j : Nat)
    (h : ∀ p (hp : p < l.length), l.get ⟨p, hp⟩ = j →
      live (t + 2 * p + 2) = false) :
    (runSteps live stepRes l t s).2.stepImages j = s.stepImages j := by
  induction l generalizing t s with
  | nil => rfl
  | cons i rest ih =>
    by_cases h0 : live t
    · by_cases h1 : live (t + 1)
      · have hrest : ∀ p (hp : p < rest.length), rest.get ⟨p, hp⟩ = j →
            live (t + 2 + 2 * p + 2) = false := by
          intro p hp hpj
          have hf := h (p + 1) (by simpa using Nat.succ_lt_succ hp) hpj
          rw [show t + 2 * (p + 1) + 2 = t + 2 + 2 * p + 2 by omega] at hf
          exact hf
        cases hres : stepRes i with
        | none => simpa [runSteps, h0, h1, hres] using ih (t + 2) s hrest
        | some img =>
          by_cases h2 : live (t + 2)
          · have hij : i ≠ j := by
              intro hij
              have hf := h 0 (by simp) hij
              rw [show t + 2 * 0 + 2 = t + 2 by omega] at hf
              simp [hf] at h2
            have h3 := ih (t + 2)
              { s with stepImages := applyStepImage s.stepImages i img } hrest
            have hji : ¬ j = i := fun hji => hij (Eq.symm hji)
            simp only [applyStepImage] at h3
            rw [if_neg hji] at h3
            simp [runSteps, h0, h1, hres, h2, h3]
          · simpa [runSteps, h0, h1, hres, h2] using ih (t + 2) s hrest
      · simp [runSteps, h0, h1]
    · simp [runSteps, h0]

/-- An uncancelled sequencer run emits the canonical event trace. -/
theorem runSequencer_events_of_live (live : Nat → Bool) (mainRes : Option String)
    (stepRes : Nat → Option String) (rec : Recipe) (s : CompState)
    (h : ∀ u, live u = true) :
    (runSequencer live mainRes stepRes rec s).1 =
      canonicalEvents rec.steps.length := by
  cases mainRes <;>
    simp [runSequencer, canonicalEvents, h,
      runSteps_events_of_live live stepRes _ 1 _ h]

/-- The canonical trace holds exactly one main request. -/
theorem canonicalEvents_count_main (n : Nat) :
    (canonicalEvents n).count Event.mainRequest = 1 := by
  induction n with
  | zero => rfl
  | succ m ih =>
    simp only [canonicalEvents, List.range_succ, List.flatMap_append,
      List.flatMap_cons, List.flatMap_nil, List.append_nil, List.count_cons,
      List.count_append] at *
    simpa using ih

/-- The canonical trace holds exactly one request per step below n and none
for any other index. -/
theorem canonicalEvents_count_step (n i : Nat) :
    (canonicalEvents n).count (Event.stepRequest i) = if i < n then 1 else 0 := by
  induction n with
  | zero => simp [canonicalEvents]
  | succ m ih =>
    simp only [canonicalEvents, List.range_succ, List.flatMap_append,
      List.flatMap_cons, List.flatMap_nil, List.append_nil, List.count_cons,
      List.count_append] at *
    by_cases him : i = m
    · subst him
      simp at ih ⊢
      omega
    · have : ¬ (Event.stepRequest m = Event.stepRequest i) := by
        simpa using fun he => him (Eq.symm he)
      simp [this] at ih ⊢
      rcases Nat.lt_trichotomy i m with hlt | heq | hgt
      · simp [hlt, Nat.lt_succ_of_lt hlt] at ih ⊢
        omega
      · exact absurd heq him
      · have h1 : ¬ i < m := by omega
        have h2 : ¬ i < m + 1 := by omega
        simp [h1, h2] at ih ⊢
        omega

/-- If the flag reads false at the post-delay check of step j, the
sequencer never issues a request for step j. -/
theorem runSequencer_no_request (live : Nat → Bool) (mainRes : Option String)
    (stepRes : Nat → Option String) (rec : Recipe) (s : CompState) (j : Nat)
    (hj : live (2 * j + 2) = false) :
    Event.stepRequest j ∉ (runSequencer live mainRes stepRes rec s).1 := by
  have key : ∀ (s2 : CompState), Event.stepRequest j ∉
      (runSteps live stepRes (List.range rec.steps.length) 1 s2).1 := by
    intro s2
    apply runSteps_no_request
    intro p hp hpj
    have hpj2 : p = j := by
      simpa [List.get_eq_getElem, List.getElem_range] using hpj
    subst hpj2
    rw [show 1 + 2 * p + 1 = 2 * p + 2 by omega]
    exact hj
  by_cases h0 : live 0
  · simpa [runSequencer, h0] using key _
  · simp [runSequencer, h0]

/-- If the flag reads false at the post-request application check of step
j, the sequencer leaves stepImages unchanged at key j. -/
theorem runSequencer_stepImages_unchanged (live : Nat → Bool)
    (mainRes : Option String) (stepRes : Nat → Option String) (rec : Recipe)
    (s : CompState) (j : Nat) (hj : live (2 * j + 3) = false) :
    (runSequencer live mainRes stepRes rec s).2.stepImages j =
      s.stepImages j := by
  have key : ∀ (s2 : CompState),
      (runSteps live stepRes (List.range rec.steps.length) 1 s2).2.stepImages j
        = s2.stepImages j := by
    intro s2
    apply runSteps_stepImages_pos_frame
    intro p hp hpj
    have hpj2 : p = j := by
      simpa [List.get_eq_getElem, List.getElem_range] using hpj
    subst hpj2
    rw [show 1 + 2 * p + 2 = 2 * p + 3 by omega]
    exact hj
  by_cases h0 : live 0
  · cases mainRes with
    | none => simpa [runSequencer, h0] using key s
    | some img =>
      by_cases h1 : live 1
      · simpa [runSequencer, h0, h1] using key { s with imageUrl := some img }
      · simpa [runSequencer, h0, h1] using key s
  · simp [runSequencer, h0]

/-- If the flag reads false at the post-main-request check, the sequencer
leaves imageUrl unchanged. -/
theorem runSequencer_imageUrl_unchanged (live : Nat → Bool)
    (mainRes : Option String) (stepRes : Nat → Option String) (rec : Recipe)
    (s : CompState) (h1 : live 1 = false) :
    (runSequencer live mainRes stepRes rec s).2.imageUrl = s.imageUrl := by
  by_cases h0 : live 0
  · cases mainRes with
    | none =>
      simpa [runSequencer, h0] using (runSteps_frame live stepRes _ 1 s).1
    | some img =>
      simpa [runSequencer, h0, h1] using (runSteps_frame live stepRes _ 1 s).1
  · simp [runSequencer, h0]

/-- If one single checkpoint c reads false, the loop stops no later than
checkpoint c, so no request is issued for any step whose post-delay check
lies at or after c — whatever the flag reads at every other checkpoint,
including checkpoints after c. -/
theorem runSteps_no_request_single (live : Nat → Bool)
    (stepRes : Nat → Option String) (c : Nat) (hc : live c = false) :
    ∀ (l : List Nat) (t : Nat) (s : CompState) (j : Nat), t ≤ c →
      (∀ p (hp : p < l.length), l.get ⟨p, hp⟩ = j → c ≤ t + 2 * p + 1) →
      Event.stepRequest j ∉ (runSteps live stepRes l t s).1 := by
  intro l
  induction l with
  | nil =>
    intro t s j _ _
    simp [runSteps]
  | cons i rest ih =>
    intro t s j htc h
    by_cases h0 : live t
    · by_cases h1 : live (t + 1)
      · have hct : c ≠ t := fun he => by rw [he] at hc; simp [hc] at h0
        have hct1 : c ≠ t + 1 := fun he => by rw [he] at hc; simp [hc] at h1
        have htc2 : t + 2 ≤ c := by omega
        have hij : i ≠ j := by
          intro hij
          have := h 0 (by simp) hij
          omega
        have hrest : ∀ p (hp : p < rest.length), rest.get ⟨p, hp⟩ = j →
            c ≤ t + 2 + 2 * p + 1 := by
          intro p hp hpj
          have := h (p + 1) (by simpa using Nat.succ_lt_succ hp) hpj
          omega
        cases hres : stepRes i
        all_goals simp [runSteps, h0, h1, hres]
        all_goals exact ⟨fun hji => hij (Eq.symm hji), ih (t + 2) _ j htc2 hrest⟩
      · simp [runSteps, h0, h1]
    · simp [runSteps, h0]

/-- If one single checkpoint c reads false, the loop stops no later than
checkpoint c, so stepImages is unchanged at every key whose application
check lies at or after c — whatever the flag reads at every other
checkpoint, including checkpoints after c. -/
theorem runSteps_stepImages_single (live : Nat → Bool)
    (stepRes : Nat → Option String) (c : Nat) (hc : live c = false) :
    ∀ (l : List Nat) (t : Nat) (s : CompState) (j : Nat), t ≤ c →
      (∀ p (hp : p < l.length), l.get ⟨p, hp⟩ = j → c ≤ t + 2 * p + 2) →
      (runSteps live stepRes l t s).2.stepImages j = s.stepImages j := by
  intro l
  induction l with
  | nil =>
    intro t s j _ _
    rfl
  | cons i rest ih =>
    intro t s j htc h
    by_cases h0 : live t
    · by_cases h1 : live (t + 1)
      · have hct : c ≠ t := fun he => by rw [he] at hc; simp [hc] at h0
        have hct1 : c ≠ t + 1 := fun he => by rw [he] at hc; simp [hc] at h1
        have htc2 : t + 2 ≤ c := by omega
        have hrest : ∀ p (hp : p < rest.length), rest.get ⟨p, hp⟩ = j →
            c ≤ t + 2 + 2 * p + 2 := by
          intro p hp hpj
          have := h (p + 1) (by simpa using Nat.succ_lt_succ hp) hpj
          omega
        cases hres : stepRes i with
        | none => simpa [runSteps, h0, h1, hres] using ih (t + 2) s j htc2 hrest
        | some img =>
          by_cases h2 : live (t + 2)
          · have hij : i ≠ j := by
              intro hij
              have hle := h 0 (by simp) hij
              have hce : c = t + 2 := by omega
              rw [hce] at hc
              simp [hc] at h2
            have hji : ¬ j = i := fun hji => hij (Eq.symm hji)
            have h3 := ih (t + 2)
              { s with stepImages := applyStepImage s.stepImages i img } j htc2
              hrest
            simp only [applyStepImage] at h3
            rw [if_neg hji] at h3
            simp [runSteps, h0, h1, hres, h2, h3]
          · simpa [runSteps, h0, h1, hres, h2] using ih (t + 2) s j htc2 hrest
      · simp [runSteps, h0, h1]
    · simp [runSteps, h0]

/-- If the checkpoint with index c samples false, the sequencer stops no
later than that checkpoint: the main image is not applied when c is at or
before its application check, no request is issued for a step whose
post-delay check lies at or after c, and no step image is written whose
application check lies at or after c.  The flag at every other checkpoint,
in particular at checkpoints after c, is unconstrained. -/
theorem runSequencer_stop_at_checkpoint (live : Nat → Bool)
    (mainRes : Option String) (stepRes : Nat → Option String) (rec : Recipe)
    (s : CompState) (c : Nat) (hc : live c = false) :
    (c ≤ 1 →
      (runSequencer live mainRes stepRes rec s).2.imageUrl = s.imageUrl) ∧
    (∀ j, c ≤ 2 * j + 2 →
      Event.stepRequest j ∉ (runSequencer live mainRes stepRes rec s).1) ∧
    (∀ j, c ≤ 2 * j + 3 →
      (runSequencer live mainRes stepRes rec s).2.stepImages j =
        s.stepImages j) := by
  by_cases h0 : live 0
  · have hc1 : 1 ≤ c := by
      by_contra hlt
      have hce : c = 0 := by omega
      rw [hce] at hc
      simp [hc] at h0
    refine ⟨fun hcle => ?_, fun j hj => ?_, fun j hj => ?_⟩
    · have hce : c = 1 := by omega
      rw [hce] at hc
      exact runSequencer_imageUrl_unchanged live mainRes stepRes rec s hc
    · have key : ∀ (s2 : CompState), Event.stepRequest j ∉
          (runSteps live stepRes (List.range rec.steps.length) 1 s2).1 := by
        intro s2
        apply runSteps_no_request_single live stepRes c hc _ 1 s2 j hc1
        intro p hp hpj
        have hpj2 : p = j := by
          simpa [List.get_eq_getElem, List.getElem_range] using hpj
        subst hpj2
        omega
      simpa [runSequencer, h0] using key _
    · have key : ∀ (s2 : CompState),
          (runSteps live stepRes (List.range rec.steps.length) 1
            s2).2.stepImages j = s2.stepImages j := by
        intro s2
        apply runSteps_stepImages_single live stepRes c hc _ 1 s2 j hc1
        intro p hp hpj
        have hpj2 : p = j := by
          simpa [List.get_eq_getElem, List.getElem_range] using hpj
        subst hpj2
        omega
      cases mainRes with
      | none => simpa [runSequencer, h0] using key s
      | some img =>
        by_cases h1 : live 1
        · simpa [runSequencer, h0, h1] using key { s with imageUrl := some img }
        · simpa [runSequencer, h0, h1] using key s
  · exact ⟨fun _ => by simp [runSequencer, h0],
      fun j _ => by simp [runSequencer, h0],
      fun j _ => by simp [runSequencer, h0]⟩

/-- C2: for every recipe with N steps, if the liveness flag of the session
stays true throughout, a run of the sequencer issues exactly one main-image
request and exactly N step-image requests, one per step in index order
starting at 0, each step request preceded by exactly one wait of the fixed
4000 ms delay, and no request for any step is ever issued twice. -/
theorem c2_uncancelled_exact_requests (live : Nat → Bool)
    (mainRes : Option String) (stepRes : Nat → Option String) (rec : Recipe)
    (s : CompState) (h : ∀ u, live u = true) :
    (runSequencer live mainRes stepRes rec s).1 =
      Event.mainRequest :: (List.range rec.steps.length).flatMap
        (fun i => [Event.delay DELAY_MS, Event.stepRequest i]) ∧
    (runSequencer live mainRes stepRes rec s).1.count Event.mainRequest = 1 ∧
    ∀ i, (runSequencer live mainRes stepRes rec s).1.count
        (Event.stepRequest i) = if i < rec.steps.length then 1 else 0 := by
  have he := runSequencer_events_of_live live mainRes stepRes rec s h
  refine ⟨by simpa [canonicalEvents] using he, ?_, ?_⟩
  · rw [he]
    exact canonicalEvents_count_main _
  · intro i
    rw [he]
    exact canonicalEvents_count_step _ i

/-- Witness for C2 on a two-step recipe with every request succeeding. -/
theorem c2_witness :
    (runSequencer (fun _ => true) (some ("main")) (fun _ => some ("img"))
        sampleRecipe sampleState).1 =
      [Event.mainRequest, Event.delay DELAY_MS, Event.stepRequest 0,
        Event.delay DELAY_MS, Event.stepRequest 1] ∧
    (runSequencer (fun _ => true) (some ("main")) (fun _ => some ("img"))
        sampleRecipe sampleState).1.count (Event.stepRequest 0) = 1 := by
  have h := c2_uncancelled_exact_requests (fun _ => true) (some ("main"))
    (fun _ => some ("img")) sampleRecipe sampleState (fun _ => rfl)
  refine ⟨?_, ?_⟩
  · rw [h.1]
    rfl
  · simpa using h.2.2 0

/-- C3: if the liveness flag reads false from the post-delay check of step
k onward, meaning it became false before the delay of step k completed and
never becomes true again, then no step-image request is issued for step k
or for any larger index; moreover any step whose post-request application
check reads false never writes its result into stepImages. -/
theorem c3_cancel_before_delay (live : Nat → Bool) (mainRes : Option String)
    (stepRes : Nat → Option String) (rec : Recipe) (s : CompState) (k : Nat)
    (h : ∀ u, 2 * k + 2 ≤ u → live u = false) :
    (∀ j, k ≤ j →
      Event.stepRequest j ∉ (runSequencer live mainRes stepRes rec s).1) ∧
    (∀ j, live (2 * j + 3) = false →
      (runSequencer live mainRes stepRes rec s).2.stepImages j =
        s.stepImages j) := by
  constructor
  · intro j hkj
    have key : ∀ (s2 : CompState), Event.stepRequest j ∉
        (runSteps live stepRes (List.range rec.steps.length) 1 s2).1 := by
      intro s2
      apply runSteps_no_request
      intro p hp hpj
      have hpj2 : p = j := by
        simpa [List.get_eq_getElem, List.getElem_range] using hpj
      subst hpj2
      exact h (1 + 2 * p + 1) (by omega)
    by_cases h0 : live 0
    · simpa [runSequencer, h0] using key _
    · simp [runSequencer, h0]
  · intro j hj
    have key : ∀ (s2 : CompState),
        (runSteps live stepRes (List.range rec.steps.length) 1 s2).2.stepImages
          j = s2.stepImages j := by
      intro s2
      apply runSteps_stepImages_pos_frame
      intro p hp hpj
      have hpj2 : p = j := by
        simpa [List.get_eq_getElem, List.getElem_range] using hpj
      subst hpj2
      rw [show 1 + 2 * p + 2 = 2 * p + 3 by omega]
      exact hj
    by_cases h0 : live 0
    · cases mainRes with
      | none => simpa [runSequencer, h0] using key s
      | some img =>
        by_cases h1 : live 1
        · simpa [runSequencer, h0, h1] using key { s with imageUrl := some img }
        · simpa [runSequencer, h0, h1] using key s
    · simp [runSequencer, h0]

/-- Witness for C3: the flag dies at the third await, so step 1 is never
requested and never written. -/
theorem c3_witness :
    Event.stepRequest 1 ∉
      (runSequencer (fun t => decide (t ≤ 2)) (some ("main"))
        (fun _ => some ("img")) sampleRecipe sampleState).1 ∧
    (runSequencer (fun t => decide (t ≤ 2)) (some ("main"))
        (fun _ => some ("img")) sampleRecipe sampleState).2.stepImages 1 =
      none := by
  have h := c3_cancel_before_delay (fun t => decide (t ≤ 2)) (some ("main"))
    (fun _ => some ("img")) sampleRecipe sampleState 1
    (fun u hu => by simp only [decide_eq_false_iff_not]; omega)
  exact ⟨h.1 1 (le_refl 1), h.2 1 (by decide)⟩

/-- C4: image failures are independent and best-effort.  With the flag true
throughout, a failed main request leaves the main-image slot unchanged, the
event trace is the full canonical one regardless of which requests fail, so
a failure at step i never prevents the request of step i+1 after its own
delay and nothing is retried, and the error field of the state is never
touched by the sequencer. -/
theorem c4_failures_best_effort (live : Nat → Bool) (mainRes : Option String)
    (stepRes : Nat → Option String) (rec : Recipe) (s : CompState)
    (h : ∀ u, live u = true) :
    (mainRes = none →
      (runSequencer live mainRes stepRes rec s).2.imageUrl = s.imageUrl) ∧
    (runSequencer live mainRes stepRes rec s).1 =
      canonicalEvents rec.steps.length ∧
    (runSequencer live mainRes stepRes rec s).2.error = s.error := by
  refine ⟨?_, runSequencer_events_of_live live mainRes stepRes rec s h, ?_⟩
  · intro hm
    subst hm
    simpa [runSequencer, h 0] using (runSteps_frame live stepRes _ 1 s).1
  · cases mainRes with
    | none =>
      simpa [runSequencer, h 0] using (runSteps_frame live stepRes _ 1 s).2.1
    | some img =>
      simpa [runSequencer, h 0, h 1] using
        (runSteps_frame live stepRes _ 1 { s with imageUrl := some img }).2.1

/-- Witness for C4: the main image fails and step 0 fails, yet the trace is
canonical and no error surfaces. -/
theorem c4_witness :
    (runSequencer (fun _ => true) none
        (fun i => if i = 0 then none else some ("img")) sampleRecipe
        sampleState).2.imageUrl = none ∧
    (runSequencer (fun _ => true) none
        (fun i => if i = 0 then none else some ("img")) sampleRecipe
        sampleState).1 = canonicalEvents 2 ∧
    (runSequencer (fun _ => true) none
        (fun i => if i = 0 then none else some ("img")) sampleRecipe
        sampleState).2.error = none := by
  have h := c4_failures_best_effort (fun _ => true) none
    (fun i => if i = 0 then none else some ("img")) sampleRecipe sampleState
    (fun _ => rfl)
  exact ⟨h.1 rfl, h.2.1, h.2.2⟩

/-- C7: applying the image of step i writes it under key i of stepImages
and leaves every other key unchanged; across a whole sequencer run, any
change at a key comes only from the successful result of that same step, so
an entry, once present, is never removed and never overwritten by the
result of a different step. -/
theorem c7_step_image_keying (live : Nat → Bool) (mainRes : Option String)
    (stepRes : Nat → Option String) (rec : Recipe) (s : CompState)
    (m : Nat → Option String) (i j : Nat) (img v : String) :
    applyStepImage m i img i = some img ∧
    (j ≠ i → applyStepImage m i img j = m j) ∧
    ((runSequencer live mainRes stepRes rec s).2.stepImages j =
        s.stepImages j ∨
      ∃ w, stepRes j = some w ∧
        (runSequencer live mainRes stepRes rec s).2.stepImages j = some w) ∧
    (s.stepImages j = some v →
      ∃ w, (runSequencer live mainRes stepRes rec s).2.stepImages j =
        some w) := by
  have origin :
      (runSequencer live mainRes stepRes rec s).2.stepImages j =
          s.stepImages j ∨
        ∃ w, stepRes j = some w ∧
          (runSequencer live mainRes stepRes rec s).2.stepImages j = some w := by
    by_cases h0 : live 0
    · cases mainRes with
      | none =>
        simpa [runSequencer, h0] using
          runSteps_stepImages_origin live stepRes _ 1 s j
      | some im =>
        by_cases h1 : live 1
        · simpa [runSequencer, h0, h1] using
            runSteps_stepImages_origin live stepRes _ 1
              { s with imageUrl := some im } j
        · simpa [runSequencer, h0, h1] using
            runSteps_stepImages_origin live stepRes _ 1 s j
    · simp [runSequencer, h0]
  refine ⟨by simp [applyStepImage], fun hji => by simp [applyStepImage, hji],
    origin, ?_⟩
  intro hv
  rcases origin with ho | ⟨w, _, hw⟩
  · exact ⟨v, by rw [ho, hv]⟩
  · exact ⟨w, hw⟩

/-- Witness for C7 with a pre-existing entry at key 1 and a fresh write at
key 0. -/
theorem c7_witness :
    applyStepImage (fun _ => none) 0 ("img") 0 = some ("img") ∧
    applyStepImage (fun _ => none) 0 ("img") 1 = none ∧
    ∃ w, (runSequencer (fun _ => true) none (fun _ => some ("img2"))
        sampleRecipe
        { sampleState with
            stepImages := fun j => if j = 1 then some ("pre") else none
        }).2.stepImages 1 = some w := by
  have h := c7_step_image_keying (fun _ => true) none (fun _ => some ("img2"))
    sampleRecipe
    { sampleState with
        stepImages := fun j => if j = 1 then some ("pre") else none }
    (fun _ => none) 0 1 ("img") ("pre")
  exact ⟨h.1, h.2.1 (by decide), h.2.2.2 (by simp)⟩

/-- C1 counterexample: the shared boolean flag cannot tell two sessions
apart.  The old loop issues its main request at tick 0, a new generation
invalidates the flag at tick 1, the new session sets it live again at tick
2, and when the old loop resumes at tick 3 its checkpoint reads true, so
the stale in-flight main image is applied to the observable state after the
invalidation, contradicting the claim that it never is. -/
theorem c1_counterexample :
    sampledLive (fun u => if u = 1 then false else true)
      (fun t => if t = 0 then 0 else t + 2) 0 = true ∧
    (fun u => if u = 1 then false else true : Nat → Bool) 1 = false ∧
    (fun t => if t = 0 then 0 else t + 2 : Nat → Nat) 0 < 1 ∧
    1 < (fun t => if t = 0 then 0 else t + 2 : Nat → Nat) 1 ∧
    sampleState.imageUrl = none ∧
    (runSequencer
        (sampledLive (fun u => if u = 1 then false else true)
          (fun t => if t = 0 then 0 else t + 2))
        (some ("old-main")) (fun _ => none) sampleRecipe
        sampleState).2.imageUrl = some ("old-main") := by
  refine ⟨rfl, rfl, by decide, by decide, rfl, rfl⟩

/-- C1 amended: once the liveness flag of a session is invalidated, the old
loop stops at its next liveness checkpoint and none of its in-flight
results are applied after the invalidation, provided the flag remains false
until that checkpoint — that is, provided no newer session sets the shared
flag live again before the old loop samples it there.  With flag the
fine-grained history, sched the resume ticks of the old loop, and c the
index of the next checkpoint after the invalidation, the single hypothesis
is that the flag reads false when the old loop samples checkpoint c; the
flag at every other tick, in particular after the old loop has stopped, is
unconstrained.  Then the main image is not applied when c is at or before
its application check, no step request is issued whose post-delay check is
at or after c, and no step image is written whose application check is at
or after c. -/
theorem c1_amended (flag : Nat → Bool) (sched : Nat → Nat) (c : Nat)
    (mainRes : Option String) (stepRes : Nat → Option String) (rec : Recipe)
    (s : CompState) (hdead : flag (sched c) = false) :
    (c ≤ 1 →
      (runSequencer (sampledLive flag sched) mainRes stepRes rec
        s).2.imageUrl = s.imageUrl) ∧
    (∀ j, c ≤ 2 * j + 2 →
      Event.stepRequest j ∉
        (runSequencer (sampledLive flag sched) mainRes stepRes rec s).1) ∧
    (∀ j, c ≤ 2 * j + 3 →
      (runSequencer (sampledLive flag sched) mainRes stepRes rec
        s).2.stepImages j = s.stepImages j) :=
  runSequencer_stop_at_checkpoint (sampledLive flag sched) mainRes stepRes
    rec s c hdead

/-- Witness for the amended C1: the flag reads false exactly at tick 1 —
the next checkpoint of the old loop — and is true again from tick 2 on, yet
the stale main image is discarded, step 0 is never requested, and its image
slot stays empty. -/
theorem c1_amended_witness :
    (runSequencer (sampledLive (fun u => decide (u ≠ 1)) (fun u => u))
      (some ("m")) (fun _ => some ("i")) sampleRecipe
      sampleState).2.imageUrl = none ∧
    Event.stepRequest 0 ∉
      (runSequencer (sampledLive (fun u => decide (u ≠ 1)) (fun u => u))
        (some ("m")) (fun _ => some ("i")) sampleRecipe sampleState).1 ∧
    (runSequencer (sampledLive (fun u => decide (u ≠ 1)) (fun u => u))
      (some ("m")) (fun _ => some ("i")) sampleRecipe
      sampleState).2.stepImages 0 = none := by
  have h := c1_amended (fun u => decide (u ≠ 1)) (fun u => u) 1 (some ("m"))
    (fun _ => some ("i")) sampleRecipe sampleState (by decide)
  exact ⟨h.1 (le_refl 1), h.2.1 0 (by decide), h.2.2 0 (by decide)⟩

/-- C5 counterexample: the provider text null is nonempty and not
parseable into the Recipe shape, yet generateCoffeeRecipe returns the
parsed JSON value instead of throwing: the type cast performs no runtime
shape validation. -/
theorem c5_counterexample :
    generateCoffeeRecipe (some ("null")) = Except.ok Json.null ∧
    isRecipeShaped Json.null = false :=
  ⟨rfl, rfl⟩

/-- C5 amended: generateCoffeeRecipe throws exactly when the response text
is missing, empty, or not syntactically valid JSON; any syntactically valid
JSON text is returned as parsed, with no validation against the Recipe
shape. -/
theorem c5_amended (t : String) :
    generateCoffeeRecipe none = Except.error ("No recipe generated") ∧
    generateCoffeeRecipe (some ("")) = Except.error ("No recipe generated") ∧
    (t ≠ "" →
      (∃ j, jsonParse t = some j ∧
          generateCoffeeRecipe (some t) = Except.ok j) ∨
        (jsonParse t = none ∧
          generateCoffeeRecipe (some t) = Except.error ("SyntaxError"))) := by
  refine ⟨rfl, rfl, fun ht => ?_⟩
  cases hj : jsonParse t with
  | some j => exact Or.inl ⟨j, rfl, by simp [generateCoffeeRecipe, ht, hj]⟩
  | none => exact Or.inr ⟨rfl, by simp [generateCoffeeRecipe, ht, hj]⟩

/-- Witness for the amended C5 at the nonempty valid-JSON text null. -/
theorem c5_amended_witness :
    (∃ j, jsonParse ("null") = some j ∧
        generateCoffeeRecipe (some ("null")) = Except.ok j) ∨
      (jsonParse ("null") = none ∧
        generateCoffeeRecipe (some ("null")) = Except.error ("SyntaxError")) :=
  (c5_amended ("null")).2.2 (by decide)

/-- C6 counterexample: a failed regeneration shows the localized error but
clears the previously displayed main image instead of restoring it, and a
failed chat send keeps the appended user message, appends the error reply,
and leaves the input cleared — so the UI does not return to exactly its
pre-submission state. -/
theorem c6_counterexample :
    ((handleGenerateRun Language.en
        { sampleState with
            imageUrl := some ("old")
            stepImages := fun j => if j = 0 then some ("oldstep") else none }
        ("latte") none).1.error = some (recipeErrorText Language.en)) ∧
    ({ sampleState with
        imageUrl := some ("old")
        stepImages := fun j => if j = 0 then some ("oldstep") else none } :
      CompState).imageUrl = some ("old") ∧
    ((handleGenerateRun Language.en
        { sampleState with
            imageUrl := some ("old")
            stepImages := fun j => if j = 0 then some ("oldstep") else none }
        ("latte") none).1.imageUrl = none) ∧
    ({ sampleState with
        imageUrl := some ("old")
        stepImages := fun j => if j = 0 then some ("oldstep") else none } :
      CompState).stepImages 0 = some ("oldstep") ∧
    ((handleGenerateRun Language.en
        { sampleState with
            imageUrl := some ("old")
            stepImages := fun j => if j = 0 then some ("oldstep") else none }
        ("latte") none).1.stepImages 0 = none) ∧
    ((handleSendRun Language.en sampleChat 7 none).1.messages.length = 2) ∧
    (sampleChat.messages.length = 0) ∧
    ((handleSendRun Language.en sampleChat 7 none).1.input = "") ∧
    (sampleChat.input = "hi") := by
  refine ⟨rfl, rfl, rfl, rfl, rfl, rfl, rfl, rfl, rfl⟩

/-- C6 amended: every fatal-to-request error shows a localized inline error
message and clears the submission progress — the recipe view returns to the
input step with loading false, the chat clears its loading flag — but the
UI does not return to exactly its pre-submission state: the recipe, main
image and the whole step-image map stay cleared rather than restored, the
prompt keeps the submitted text, and the chat keeps the appended user
message, appends the localized error reply, and leaves the input
cleared. -/
theorem c6_amended (lang : Language) (s : CompState) (p : String)
    (cs : ChatState) (now : Nat) (hp : jsTrim p ≠ "")
    (hcs : jsTrim cs.input ≠ "") (hload : cs.isLoading = false) :
    ((handleGenerateRun lang s p none).1.error =
      some (recipeErrorText lang)) ∧
    ((handleGenerateRun lang s p none).1.step = ViewStep.input) ∧
    ((handleGenerateRun lang s p none).1.loading = false) ∧
    ((handleGenerateRun lang s p none).1.recipe = none) ∧
    ((handleGenerateRun lang s p none).1.imageUrl = none) ∧
    ((handleGenerateRun lang s p none).1.stepImages = fun _ => none) ∧
    ((handleGenerateRun lang s p none).1.prompt = p) ∧
    ((handleSendRun lang cs now none).1.messages =
      cs.messages ++ [mkUserMsg now cs.input, mkChatErrorMsg lang now]) ∧
    ((handleSendRun lang cs now none).1.isLoading = false) ∧
    ((handleSendRun lang cs now none).1.input = "") := by
  simp [handleGenerateRun, handleSendRun, hp, hcs, hload]

/-- Witness for the amended C6 at a concrete failed generation and a
concrete failed chat send. -/
theorem c6_amended_witness :
    ((handleGenerateRun Language.en sampleState ("latte") none).1.error =
      some (recipeErrorText Language.en)) ∧
    ((handleGenerateRun Language.en sampleState ("latte") none).1.stepImages =
      fun _ => none) ∧
    ((handleSendRun Language.en sampleChat 7 none).1.messages =
      sampleChat.messages ++ [mkUserMsg 7 sampleChat.input,
        mkChatErrorMsg Language.en 7]) := by
  obtain ⟨h1, _, _, _, _, h6, _, h8, _, _⟩ :=
    c6_amended Language.en sampleState ("latte") sampleChat 7
      (by decide) (by decide) rfl
  exact ⟨h1, h6, h8⟩

/-- C8: the sources list attached to the displayed reply message holds
exactly one entry per grounding chunk carrying a web URI, in the order of
the metadata, each entry pairing that chunk uri and title, and every chunk
lacking a URI is dropped. -/
theorem c8_sources_extraction (chunks : List GroundingChunk) (now : Nat)
    (resp : ChatResponse) :
    sourcesOfChunks chunks =
      (chunks.filter hasWebUri).map specSourceOfChunk ∧
    (mkBotMsg now resp).sources =
      (resp.groundingMetadata.bind GroundingMetadata.groundingChunks).map
        sourcesOfChunks := by
  refine ⟨?_, rfl⟩
  induction chunks with
  | nil => rfl
  | cons c rest ih =>
    cases hw : c.web with
    | none =>
      simpa [sourcesOfChunks, entryOfChunk, hasWebUri, hw,
        List.filter_cons] using ih
    | some w =>
      cases hu : w.uri with
      | none =>
        simpa [sourcesOfChunks, entryOfChunk, hasWebUri, hw, hu,
          List.filter_cons] using ih
      | some u =>
        by_cases hue : u = ""
        · simpa [sourcesOfChunks, entryOfChunk, hasWebUri, specSourceOfChunk,
            hw, hu, hue, List.filter_cons] using ih
        · simpa [sourcesOfChunks, entryOfChunk, hasWebUri, specSourceOfChunk,
            hw, hu, hue, List.filter_cons] using ih

/-- C9: handleReset only clears the liveness flag and returns the view to
the input step; the recipe, main image url, step-image map, prompt text and
error message are all unchanged. -/
theorem c9_reset_frame (s : CompState) :
    (handleReset s).isGenerating = false ∧
    (handleReset s).step = ViewStep.input ∧
    (handleReset s).prompt = s.prompt ∧
    (handleReset s).loading = s.loading ∧
    (handleReset s).recipe = s.recipe ∧
    (handleReset s).imageUrl = s.imageUrl ∧
    (handleReset s).stepImages = s.stepImages ∧
    (handleReset s).error = s.error :=
  ⟨rfl, rfl, rfl, rfl, rfl, rfl, rfl, rfl⟩

/-- C10: a blank or whitespace-only input makes handleGenerate return
immediately with no request issued and no state change; likewise handleSend
for a blank input, and handleSend returns immediately while a previous
conversational request is still loading, so at most one conversational
request is in flight at a time. -/
theorem c10_blank_input_guards (lang : Language) (s : CompState) (p : String)
    (recipeRes : Option Recipe) (cs : ChatState) (now : Nat)
    (reply : Option ChatResponse) :
    (jsTrim p = "" → handleGenerateRun lang s p recipeRes = (s, false)) ∧
    (jsTrim cs.input = "" → handleSendRun lang cs now reply = (cs, false)) ∧
    (cs.isLoading = true → handleSendRun lang cs now reply = (cs, false)) := by
  refine ⟨fun hp => ?_, fun hc => ?_, fun hl => ?_⟩
  · simp [handleGenerateRun, hp]
  · simp [handleSendRun, hc]
  · simp [handleSendRun, hl]

/-- Witness for C10 at a whitespace-only prompt, a whitespace-only chat
input, and a chat still loading. -/
theorem c10_witness :
    handleGenerateRun Language.en sampleState ("   ") (some sampleRecipe) =
      (sampleState, false) ∧
    handleSendRun Language.en { sampleChat with input := " " } 0 none =
      ({ sampleChat with input := " " }, false) ∧
    handleSendRun Language.en { sampleChat with isLoading := true } 0 none =
      ({ sampleChat with isLoading := true }, false) := by
  have h1 := c10_blank_input_guards Language.en sampleState ("   ")
    (some sampleRecipe) { sampleChat with input := " " } 0 none
  have h2 := c10_blank_input_guards Language.en sampleState ("   ")
    (some sampleRecipe) { sampleChat with isLoading := true } 0 none
  exact ⟨h1.1 (by decide), h1.2.1 (by decide), h2.2.2 rfl⟩

end CoffeeMaster
